/-
Verification of the JSON patch engine in `json_plan_tool.py`
(JSON Pointer resolution, RFC6902-style patch application, atomic store).

The Python source is shallowly embedded: documents are the inductive `J`
(objects are ordered association lists, mirroring Python's insertion-ordered
`dict`; numbers are modelled as integers — no claim involves float
arithmetic), in-place mutation is rendered as explicit rebuild-on-the-path
state passing, and each distinct `raise` site of the source is one
constructor of `Err`.  Python `TypeError`/`AttributeError` raised when a
scalar is used as a container are collapsed into `Err.typeMismatch`, except
for the `str` corner of `pointer_add`/`pointer_replace` where Python's
`last in parent` substring test is modelled faithfully.
-/
import Mathlib

set_option autoImplicit false

namespace JsonPlanTool

/-- A JSON document: `null`, booleans, (integer) numbers, strings, arrays,
objects.  Objects are insertion-ordered association lists, as Python dicts
are. -/
inductive J where
  | null : J
  | bool : Bool → J
  | num : Int → J
  | str : String → J
  | arr : List J → J
  | obj : List (String × J) → J

/-- One constructor per distinct `raise` site of the Python source.
`assertionFailed` carries the path, the actual value and the expected value,
as the `AssertionError` message of `apply_patch` does. -/
inductive Err where
  /-- The `ValueError` from `_split_pointer`: pointer does not start with `/`. -/
  | malformedPointer : Err
  /-- The `KeyError("'-' is not valid for get operations")` in `pointer_get`. -/
  | dashGet : Err
  /-- The `ValueError` from `int(t)` on a non-numeric token. -/
  | intParse : Err
  /-- The `IndexError` from indexing a list out of range. -/
  | indexOutOfRange : Err
  /-- The `KeyError` from a missing dict key (lookup or `del`). -/
  | notFound : Err
  /-- The `KeyError("Add target exists: ...")` in `pointer_add`. -/
  | targetExists : Err
  /-- The `KeyError("Replace target missing: ...")` in `pointer_replace`. -/
  | replaceMissing : Err
  /-- The `KeyError("Cannot remove document root")` in `pointer_remove`. -/
  | rootRemoval : Err
  /-- Python `TypeError`/`AttributeError`: a scalar used as a container. -/
  | typeMismatch : Err
  /-- The `ValueError(f"Patch[...] missing 'from' ...")` in `apply_patch`. -/
  | missingFrom : Err
  /-- The `ValueError(f"Patch[...] missing valid 'path'")` in `apply_patch`. -/
  | missingPath : Err
  /-- The `ValueError(f"Unsupported op: ...")` in `apply_patch`. -/
  | unsupportedOp : Err
  /-- The `AssertionError` from a failed `test`: path, actual, expected. -/
  | assertionFailed : String → J → J → Err

/-- First value bound to a key in an association list (Python dict lookup;
keys are unique in any list built by the engine). -/
def lookupKey (k : String) : List (String × J) → Option J
  | [] => none
  | (k', v) :: rest => if k' = k then some v else lookupKey k rest

/-- Python `parent[last] = value` on a dict: overwrite in place if the key is
present (keeping its position), else append. -/
def setKey (k : String) (v : J) : List (String × J) → List (String × J)
  | [] => [(k, v)]
  | (k', v') :: rest =>
      if k' = k then (k, v) :: rest else (k', v') :: setKey k v rest

/-- Python `del parent[last]` on a dict whose key is present: drop the first
(only) binding of `k`. -/
def eraseKey (k : String) : List (String × J) → List (String × J)
  | [] => []
  | (k', v') :: rest =>
      if k' = k then rest else (k', v') :: eraseKey k rest

/-- Python `int(t)` on a token: an optional sign followed by a nonempty run
of decimal digits.  (Surrounding whitespace and `_` digit separators, which
CPython also accepts, are not modelled; no claim involves such tokens.) -/
def parseIntChars : List Char → Option Int
  | [] => none
  | '-' :: rest =>
      if rest ≠ [] ∧ rest.all Char.isDigit
      then some (-(rest.foldl (fun a c => a * 10 + (c.toNat - '0'.toNat)) 0 : Nat))
      else none
  | '+' :: rest =>
      if rest ≠ [] ∧ rest.all Char.isDigit
      then some ((rest.foldl (fun a c => a * 10 + (c.toNat - '0'.toNat)) 0 : Nat))
      else none
  | l =>
      if l.all Char.isDigit
      then some ((l.foldl (fun a c => a * 10 + (c.toNat - '0'.toNat)) 0 : Nat))
      else none

/-- Python `int(t)` over a string token. -/
def parseInt (t : String) : Option Int := parseIntChars t.data

/-- Python list indexing `xs[k]` validity: the effective nonnegative
position, or `none` when `k` is out of `[-n, n)`. -/
def pyIdx (n : Nat) (k : Int) : Option Nat :=
  if 0 ≤ k ∧ k < (n : Int) then some k.toNat
  else if -(n : Int) ≤ k ∧ k < 0 then some (n - (-k).toNat)
  else none

/-- Python `list.insert(k, v)`: the insertion position is clamped to
`[0, n]` (negative `k` counts from the end). -/
def pyInsertPos (n : Nat) (k : Int) : Nat :=
  if k < 0 then (max 0 ((n : Int) + k)).toNat else min k.toNat n

/-- Python substring test `needle in hay` (`""` is in every string). -/
def isSubstrChars (needle : List Char) : List Char → Bool
  | [] => needle.isEmpty
  | c :: rest => needle.isPrefixOf (c :: rest) || isSubstrChars needle rest

/-- The `last in parent` test for a `str` parent. -/
def isSubstr (needle hay : String) : Bool := isSubstrChars needle.data hay.data

/-- Python `s.replace(pat, rep)` specialized to a two-character pattern and a
one-character replacement: leftmost-first, non-overlapping scan. -/
def replace2 (a b c : Char) : List Char → List Char
  | [] => []
  | [x] => [x]
  | x :: y :: rest =>
      if x = a ∧ y = b then c :: replace2 a b c rest
      else x :: replace2 a b c (y :: rest)

/-- Embeds `_unescape_token` from the source:
`token.replace("~1", "/").replace("~0", "~")`, two chained scans. -/
def unescapeToken (t : String) : String :=
  ⟨replace2 '~' '0' '~' (replace2 '~' '1' '/' t.data)⟩

/-- Modelled from the spec: `~1`→`/` and `~0`→`~` applied as independent
substitutions over the raw token in a single left-to-right pass, each escape
unescaped exactly once, no double-processing of overlapping patterns. -/
def unescIndepChars : List Char → List Char
  | [] => []
  | [x] => [x]
  | x :: y :: rest =>
      if x = '~' ∧ y = '1' then '/' :: unescIndepChars rest
      else if x = '~' ∧ y = '0' then '~' :: unescIndepChars rest
      else x :: unescIndepChars (y :: rest)

/-- The spec's independent-substitution unescaping, over strings. -/
def unescapeIndep (t : String) : String := ⟨unescIndepChars t.data⟩

/-- Python `ptr.split("/")` over a character list: `acc` holds the
(reversed) characters of the current field. -/
def splitSlashAux : List Char → List Char → List String
  | acc, [] => [⟨acc.reverse⟩]
  | acc, c :: rest =>
      if c = '/' then ⟨acc.reverse⟩ :: splitSlashAux [] rest
      else splitSlashAux (c :: acc) rest

/-- Python `ptr.split("/")`. -/
def splitSlash (s : String) : List String := splitSlashAux [] s.data

/-- Python `ptr.startswith("/")`. -/
def startsWithSlash (s : String) : Bool :=
  match s.data with
  | '/' :: _ => true
  | _ => false

/-- Embeds `_split_pointer`: `""` and `"/"` denote the root; otherwise the pointer
must start with `/` and is split on `/` with the leading empty field
dropped (`ptr.split("/")[1:]`), each token unescaped. -/
def splitPointer (ptr : String) : Except Err (List String) :=
  if ptr = "" ∨ ptr = "/" then .ok []
  else if startsWithSlash ptr then
    .ok (((splitSlash ptr).drop 1).map unescapeToken)
  else .error .malformedPointer

/-- The navigation loop of `pointer_get`: on a list, `-` is rejected, the
token is parsed with `int` and indexed with Python semantics (negative
indices address from the end); on a dict, a missing key is `KeyError`; on a
scalar, `TypeError`. -/
def getTokens : J → List String → Except Err J
  | cur, [] => .ok cur
  | .arr xs, t :: rest =>
      if t = "-" then .error .dashGet
      else match parseInt t with
        | none => .error .intParse
        | some k =>
          match pyIdx xs.length k with
          | none => .error .indexOutOfRange
          | some i => getTokens (xs.getD i .null) rest
  | .obj kvs, t :: rest =>
      match lookupKey t kvs with
      | none => .error .notFound
      | some c => getTokens c rest
  | .null, _ :: _ => .error .typeMismatch
  | .bool _, _ :: _ => .error .typeMismatch
  | .num _, _ :: _ => .error .typeMismatch
  | .str _, _ :: _ => .error .typeMismatch

/-- One navigation step of `_ensure_parent`: on a list, `cur = cur[int(t)]`;
on a dict, `cur = cur.setdefault(t, {})` — the in-place insertion of the
`{}` default is kept in the rebuilt document even when the continuation
fails; on a scalar, `AttributeError`/`TypeError`. -/
def descend (cur : J) (t : String) (kont : J → J × Option Err) : J × Option Err :=
  match cur with
  | .arr xs =>
      match parseInt t with
      | none => (cur, some .intParse)
      | some k =>
        match pyIdx xs.length k with
        | none => (cur, some .indexOutOfRange)
        | some i =>
            let r := kont (xs.getD i .null)
            (.arr (xs.set i r.1), r.2)
  | .obj kvs =>
      match lookupKey t kvs with
      | some c =>
          let r := kont c
          (.obj (setKey t r.1 kvs), r.2)
      | none =>
          let r := kont (.obj [])
          (.obj (kvs ++ [(t, r.1)]), r.2)
  | _ => (cur, some .typeMismatch)

/-- Embeds `pointer_add` over a token list: empty tokens replace the root; the
parent is reached via `_ensure_parent` (`descend` steps); a list parent
appends on `-` and otherwise uses Python's clamping `list.insert`; a dict
parent is strict-insert (`KeyError` when the key exists).  A `str` parent
hits Python's `last in parent` substring test before the failing item
assignment. -/
def addTokens : J → List String → J → J × Option Err
  | _cur, [], v => (v, none)
  | cur, [last], v =>
      match cur with
      | .arr xs =>
          if last = "-" then (.arr (xs ++ [v]), none)
          else match parseInt last with
            | none => (cur, some .intParse)
            | some k => (.arr (xs.insertIdx (pyInsertPos xs.length k) v), none)
      | .obj kvs =>
          match lookupKey last kvs with
          | some _ => (cur, some .targetExists)
          | none => (.obj (kvs ++ [(last, v)]), none)
      | .str s =>
          if isSubstr last s then (cur, some .targetExists)
          else (cur, some .typeMismatch)
      | _ => (cur, some .typeMismatch)
  | cur, t :: r :: rs, v => descend cur t (fun c => addTokens c (r :: rs) v)

/-- Embeds `pointer_replace` over a token list: empty tokens replace the root; a
list parent assigns `parent[int(last)] = value` (Python index semantics); a
dict parent requires the key to be present. -/
def replaceTokens : J → List String → J → J × Option Err
  | _cur, [], v => (v, none)
  | cur, [last], v =>
      match cur with
      | .arr xs =>
          match parseInt last with
          | none => (cur, some .intParse)
          | some k =>
            match pyIdx xs.length k with
            | none => (cur, some .indexOutOfRange)
            | some i => (.arr (xs.set i v), none)
      | .obj kvs =>
          match lookupKey last kvs with
          | some _ => (.obj (setKey last v kvs), none)
          | none => (cur, some .replaceMissing)
      | .str s =>
          if isSubstr last s then (cur, some .typeMismatch)
          else (cur, some .replaceMissing)
      | _ => (cur, some .typeMismatch)
  | cur, t :: r :: rs, v => descend cur t (fun c => replaceTokens c (r :: rs) v)

/-- Embeds `pointer_remove` over a token list: empty tokens are
`RootRemovalForbidden`; a list parent is `del parent[int(last)]`; a dict
parent is `del parent[last]` (`KeyError` when absent). -/
def removeTokens : J → List String → J × Option Err
  | cur, [] => (cur, some .rootRemoval)
  | cur, [last] =>
      match cur with
      | .arr xs =>
          match parseInt last with
          | none => (cur, some .intParse)
          | some k =>
            match pyIdx xs.length k with
            | none => (cur, some .indexOutOfRange)
            | some i => (.arr (xs.eraseIdx i), none)
      | .obj kvs =>
          match lookupKey last kvs with
          | some _ => (.obj (eraseKey last kvs), none)
          | none => (cur, some .notFound)
      | _ => (cur, some .typeMismatch)
  | cur, t :: r :: rs => descend cur t (fun c => removeTokens c (r :: rs))

/-- Embeds `pointer_get(doc, pointer)`. -/
def pointer_get (doc : J) (ptr : String) : Except Err J :=
  match splitPointer ptr with
  | .error e => .error e
  | .ok ts => getTokens doc ts

/-- Embeds `pointer_add(doc, pointer, value)`; the first component is the document
state after the call (including partial in-place mutations on failure). -/
def pointer_add (doc : J) (ptr : String) (v : J) : J × Option Err :=
  match splitPointer ptr with
  | .error e => (doc, some e)
  | .ok ts => addTokens doc ts v

/-- Embeds `pointer_replace(doc, pointer, value)`. -/
def pointer_replace (doc : J) (ptr : String) (v : J) : J × Option Err :=
  match splitPointer ptr with
  | .error e => (doc, some e)
  | .ok ts => replaceTokens doc ts v

/-- Embeds `pointer_remove(doc, pointer)`. -/
def pointer_remove (doc : J) (ptr : String) : J × Option Err :=
  match splitPointer ptr with
  | .error e => (doc, some e)
  | .ok ts => removeTokens doc ts

mutual
/-- Python `==` between parsed-JSON values as used by the `test` operation:
structural, except that `bool` compares equal to the corresponding `int`
(`True == 1` in Python) and dict comparison ignores insertion order. -/
def pyEq : J → J → Bool
  | .null, .null => true
  | .bool a, .bool b => a == b
  | .bool a, .num m => (if a then (1 : Int) else 0) == m
  | .num n, .bool b => n == (if b then (1 : Int) else 0)
  | .num n, .num m => n == m
  | .str a, .str b => a == b
  | .arr xs, .arr ys => pyEqList xs ys
  | .obj a, .obj b => a.length == b.length && pyEqSub a b
  | _, _ => false

/-- Elementwise Python `==` on lists. -/
def pyEqList : List J → List J → Bool
  | [], [] => true
  | x :: xs, y :: ys => pyEq x y && pyEqList xs ys
  | _, _ => false

/-- Every binding of the first dict has a `pyEq`-equal value in the second. -/
def pyEqSub : List (String × J) → List (String × J) → Bool
  | [], _ => true
  | (k, v) :: rest, b =>
      (match lookupKey k b with
       | some w => pyEq v w
       | none => false) && pyEqSub rest b
end

/-- One patch operation record, as a Python dict read with `.get`: every
field may be absent (`op.get(...)` returns `None` for a missing field). -/
structure Op where
  op : Option String
  path : Option String
  value : Option J
  fromPtr : Option String

/-- Embeds `json.loads(json.dumps(val))`: for the modelled (finite, integer-number)
documents the serialization round-trip is the identity deep copy. -/
def deepCopy (v : J) : J := v

/-- The body of one iteration of the `apply_patch` loop: `value` is read
with `.get` (a missing field yields `None`, i.e. JSON null), `move`/`copy`
check `from` before the `path` check, then the operation dispatches. -/
def applyOp (doc : J) (o : Op) : J × Option Err :=
  let value := o.value.getD .null
  if (o.op = some "move" ∨ o.op = some "copy") ∧ o.fromPtr = none then
    (doc, some .missingFrom)
  else match o.path with
  | none => (doc, some .missingPath)
  | some path =>
    if o.op = some "add" then pointer_add doc path value
    else if o.op = some "remove" then pointer_remove doc path
    else if o.op = some "replace" then pointer_replace doc path value
    else if o.op = some "move" then
      match pointer_get doc (o.fromPtr.getD "") with
      | .error e => (doc, some e)
      | .ok val =>
        match pointer_remove doc (o.fromPtr.getD "") with
        | (d, some e) => (d, some e)
        | (d, none) => pointer_add d path val
    else if o.op = some "copy" then
      match pointer_get doc (o.fromPtr.getD "") with
      | .error e => (doc, some e)
      | .ok val => pointer_add doc path (deepCopy val)
    else if o.op = some "test" then
      match pointer_get doc path with
      | .error e => (doc, some e)
      | .ok cur =>
          if pyEq cur value then (doc, none)
          else (doc, some (.assertionFailed path cur value))
    else (doc, some .unsupportedOp)

/-- Embeds `apply_patch`: operations run strictly in order against the evolving
document; the first failure aborts, keeping the mutations already applied
(no rollback). -/
def applyPatch : J → List Op → J × Option Err
  | doc, [] => (doc, none)
  | doc, o :: rest =>
      match applyOp doc o with
      | (d, none) => applyPatch d rest
      | (d, some e) => (d, some e)

/-- The read-only trace of `_ensure_parent`'s navigation over the non-final
tokens: the value the cursor holds when the loop ends (with `setdefault`
defaults simulated), or `none` when navigation raises. -/
def navEnsure : J → List String → Option J
  | cur, [] => some cur
  | .arr xs, t :: rest =>
      match parseInt t with
      | none => none
      | some k =>
        match pyIdx xs.length k with
        | none => none
        | some i => navEnsure (xs.getD i .null) rest
  | .obj kvs, t :: rest => navEnsure ((lookupKey t kvs).getD (.obj [])) rest
  | _, _ :: _ => none

/-- The chain of empty objects `_ensure_parent` creates below a fresh key
when all remaining non-final tokens are absent: the final token contributes
nothing (the operation fails at it). -/
def nestEmpty : List String → J
  | [] => .obj []
  | [_] => .obj []
  | t :: r :: rs => .obj [(t, nestEmpty (r :: rs))]

/-- File contents: the exact bytes, abstracted as a string. -/
abbrev Bytes := String

/-- Looks a path up in a path-to-contents association list. -/
def lookupFile (p : String) : List (String × Bytes) → Option Bytes
  | [] => none
  | (q, b) :: rest => if q = p then some b else lookupFile p rest

/-- Creates or overwrites the file at `p`. -/
def setFile (p : String) (b : Bytes) : List (String × Bytes) → List (String × Bytes)
  | [] => [(p, b)]
  | (q, c) :: rest => if q = p then (p, b) :: rest else (q, c) :: setFile p b rest

/-- Deletes the file at `p`. -/
def removeFile (p : String) : List (String × Bytes) → List (String × Bytes)
  | [] => []
  | (q, c) :: rest => if q = p then removeFile p rest else (q, c) :: removeFile p rest

/-- A file system: a finite map from paths to file contents. -/
structure FS where
  files : List (String × Bytes)

/-- Reads the contents at `p`, when the file exists. -/
def FS.read (fs : FS) (p : String) : Option Bytes := lookupFile p fs.files

/-- Writes contents `b` at `p` (create or overwrite). -/
def FS.write (fs : FS) (p : String) (b : Bytes) : FS := ⟨setFile p b fs.files⟩

/-- Removes the file at `p`. -/
def FS.erase (fs : FS) (p : String) : FS := ⟨removeFile p fs.files⟩

/-- Python `os.path.exists(p)`. -/
def FS.pathExists (fs : FS) (p : String) : Bool := (fs.read p).isSome

/-- A UTC wall-clock instant, as `datetime.datetime.utcnow()` returns it. -/
structure UTCTime where
  year : Nat
  month : Nat
  day : Nat
  hour : Nat
  minute : Nat
  second : Nat

/-- The decimal digit character for `d % 10`. -/
def digitChar10 (d : Nat) : Char := Char.ofNat (48 + d % 10)

/-- Zero-padded two-digit decimal rendering (`strftime` `%m`, `%d`, `%H`,
`%M`, `%S`). -/
def pad2 (n : Nat) : String := ⟨[digitChar10 (n / 10), digitChar10 n]⟩

/-- Zero-padded four-digit decimal rendering (`strftime` `%Y`, for years
below 10000). -/
def pad4 (n : Nat) : String :=
  ⟨[digitChar10 (n / 1000), digitChar10 (n / 100), digitChar10 (n / 10), digitChar10 n]⟩

/-- Embeds `utcnow().strftime("%Y%m%dT%H%M%SZ")`: the backup timestamp in
`YYYYMMDDThhmmssZ` format. -/
def fmtTimestamp (t : UTCTime) : String :=
  pad4 t.year ++ pad2 t.month ++ pad2 t.day ++ "T" ++ pad2 t.hour
    ++ pad2 t.minute ++ pad2 t.second ++ "Z"

/-- Python `new_hash[:8]`: the first eight characters. -/
def take8 (s : String) : String := ⟨s.data.take 8⟩

/-- The observable file-system effects of one `write_atomic` call, in
program order. -/
inductive FEvent where
  /-- The `tempfile.mkstemp(prefix=".jsontmp-", dir=dirn)` call. -/
  | mkTemp : String → FEvent
  /-- The `tmp.write(data)` call on the temporary file. -/
  | writeTemp : String → Bytes → FEvent
  /-- The `os.fsync(tmp.fileno())` call. -/
  | fsyncTemp : String → FEvent
  /-- The `shutil.copy2(path, bak_path)` call. -/
  | copyBackup : String → String → FEvent
  /-- The `os.replace(tmp_path, path)` call. -/
  | renameOnto : String → String → FEvent

/-- Embeds `write_atomic` over an explicit file-system state.  `dumps`
abstracts `json.dumps(obj, indent=2, ensure_ascii=False).encode("utf-8")`
and `sha256hex` abstracts `hashlib.sha256(data).hexdigest()` (a
cryptographic hash has no shallow embedding); `now` is the instant
`datetime.datetime.utcnow()` returns and `tmpPath` the fresh name
`tempfile.mkstemp` picks.  Returns the final state, the `(path, new_hash)`
return value, and the ordered trace of file-system effects. -/
def write_atomic (dumps : J → Bytes) (sha256hex : Bytes → String)
    (now : UTCTime) (tmpPath : String) (fs : FS) (path : String) (obj : J)
    (make_backup : Bool) : FS × (String × String) × List FEvent :=
  let data := dumps obj
  let newHash := sha256hex data
  let fs1 := fs.write tmpPath data
  let preEvents := [FEvent.mkTemp tmpPath, FEvent.writeTemp tmpPath data,
                    FEvent.fsyncTemp tmpPath]
  if make_backup ∧ fs1.pathExists path then
    let bakPath := path ++ ".bak." ++ fmtTimestamp now ++ "." ++ take8 newHash
    let fs2 := fs1.write bakPath ((fs1.read path).getD "")
    let fs3 := (fs2.erase tmpPath).write path data
    (fs3, (path, newHash),
      preEvents ++ [FEvent.copyBackup path bakPath, FEvent.renameOnto tmpPath path])
  else
    let fs3 := (fs1.erase tmpPath).write path data
    (fs3, (path, newHash), preEvents ++ [FEvent.renameOnto tmpPath path])

/-! ## Helper lemmas -/

theorem lookupKey_setKey_self (k : String) (v : J) (l : List (String × J)) :
    lookupKey k (setKey k v l) = some v := by
  induction l with
  | nil => simp [setKey, lookupKey]
  | cons p rest ih =>
      obtain ⟨k', v'⟩ := p
      by_cases h : k' = k
      · simp [setKey, lookupKey, h]
      · simp [setKey, lookupKey, h, ih]

theorem lookupKey_eraseKey_none (a b : String) (l : List (String × J))
    (h : lookupKey b l = none) : lookupKey b (eraseKey a l) = none := by
  induction l with
  | nil => simpa [eraseKey] using h
  | cons p rest ih =>
      obtain ⟨k', v'⟩ := p
      simp only [lookupKey] at h
      by_cases hb : k' = b
      · simp [hb] at h
      · rw [if_neg hb] at h
        by_cases ha : k' = a
        · simp only [eraseKey, if_pos ha]
          exact h
        · simp only [eraseKey, if_neg ha, lookupKey, if_neg hb]
          exact ih h

theorem pyIdx_lt {n : Nat} {k : Int} {i : Nat} (h : pyIdx n k = some i) :
    i < n := by
  unfold pyIdx at h
  split at h
  · simp only [Option.some.injEq] at h
    omega
  · split at h
    · simp only [Option.some.injEq] at h
      omega
    · exact absurd h (by simp)

theorem getD_set_self (l : List J) (i : Nat) (v d : J) (h : i < l.length) :
    (l.set i v).getD i d = v := by
  rw [List.getD_eq_getElem?_getD, List.getElem?_set_self h, Option.getD_some]

theorem addTokens_cons_of_ne_nil (cur : J) (t : String) (l : List String)
    (v : J) (h : l ≠ []) :
    addTokens cur (t :: l) v = descend cur t (fun c => addTokens c l v) := by
  cases l with
  | nil => exact absurd rfl h
  | cons r rs => rfl

theorem replaceTokens_cons_of_ne_nil (cur : J) (t : String) (l : List String)
    (v : J) (h : l ≠ []) :
    replaceTokens cur (t :: l) v = descend cur t (fun c => replaceTokens c l v) := by
  cases l with
  | nil => exact absurd rfl h
  | cons r rs => rfl

theorem removeTokens_cons_of_ne_nil (cur : J) (t : String) (l : List String)
    (h : l ≠ []) :
    removeTokens cur (t :: l) = descend cur t (fun c => removeTokens c l) := by
  cases l with
  | nil => exact absurd rfl h
  | cons r rs => rfl

theorem removeTokens_nest (rest : List String) :
    ∀ (t : String) (kvs : List (String × J)), rest ≠ [] →
      lookupKey t kvs = none →
      removeTokens (.obj kvs) (t :: rest)
        = (.obj (kvs ++ [(t, nestEmpty rest)]), some .notFound) := by
  induction rest with
  | nil => intro t kvs h _; exact absurd rfl h
  | cons r rs ih =>
      intro t kvs _ hl
      cases rs with
      | nil =>
          simp [removeTokens, descend, hl, lookupKey, nestEmpty]
      | cons r' rs' =>
          have hinner := ih r [] (by simp) rfl
          rw [removeTokens_cons_of_ne_nil _ _ _ (by simp)]
          simp only [descend, hl, hinner, nestEmpty]
          simp

theorem replaceTokens_nest (rest : List String) :
    ∀ (t : String) (kvs : List (String × J)) (v : J), rest ≠ [] →
      lookupKey t kvs = none →
      replaceTokens (.obj kvs) (t :: rest) v
        = (.obj (kvs ++ [(t, nestEmpty rest)]), some .replaceMissing) := by
  induction rest with
  | nil => intro t kvs v h _; exact absurd rfl h
  | cons r rs ih =>
      intro t kvs v _ hl
      cases rs with
      | nil =>
          simp [replaceTokens, descend, hl, lookupKey, nestEmpty]
      | cons r' rs' =>
          have hinner := ih r [] v (by simp) rfl
          rw [replaceTokens_cons_of_ne_nil _ _ _ _ (by simp)]
          simp only [descend, hl, hinner, nestEmpty]
          simp

/-! ## Claim theorems -/

/-- C1 (counterexample): on the document `{}`, the patch
`[{"op": "add", "path": "/a"}]`, whose `add` operation lacks a `value`
field, does not raise any error (no `MalformedOperation` pre-check exists):
it applies successfully and changes the document to `{"a": null}`. -/
theorem c1_counterexample :
    applyPatch (.obj []) [⟨some "add", some "/a", none, none⟩]
        = (.obj [("a", .null)], none)
    ∧ J.obj [("a", .null)] ≠ .obj [] :=
  ⟨rfl, by simp⟩

/-- C1 (amended): `apply_patch` performs no structural pre-check for a
missing `value` field on `add`/`replace`/`test`; the missing field is read
with `.get` as `None` (JSON null) and the operation executes exactly as if
`"value": null` had been given. -/
theorem c1_amended_missing_value_defaults_to_null (doc : J)
    (op path f : Option String) :
    applyOp doc ⟨op, path, none, f⟩ = applyOp doc ⟨op, path, some .null, f⟩ := rfl

/-- C2 (counterexample): moving `/a` to `/b/c` on `{"a": 1}`, where `/b`
does not exist, does not fail with `NotFound`: `_ensure_parent` creates the
missing `/b` as an empty object and the move succeeds with result
`{"b": {"c": 1}}`, which is not the post-remove, pre-add state `{}`. -/
theorem c2_counterexample :
    applyPatch (.obj [("a", .num 1)])
        [⟨some "move", some "/b/c", none, some "/a"⟩]
      = (.obj [("b", .obj [("c", .num 1)])], none) := rfl

/-- C2 (amended): for every object document with key `a` present and key
`b` absent, the single-operation move from `/a` to `/b/c` succeeds: the
absent intermediate `/b` is auto-created as an empty object, the value is
removed from `/a`, and it is inserted at `/b/c`. -/
theorem c2_amended_move_autocreates_parent (kvs : List (String × J)) (v : J)
    (ha : lookupKey "a" kvs = some v) (hb : lookupKey "b" kvs = none) :
    applyPatch (.obj kvs) [⟨some "move", some "/b/c", none, some "/a"⟩]
      = (.obj (eraseKey "a" kvs ++ [("b", .obj [("c", v)])]), none) := by
  have hget : pointer_get (.obj kvs) "/a" = .ok v := by
    have hs : splitPointer "/a" = .ok ["a"] := rfl
    simp [pointer_get, hs, getTokens, ha]
  have hrm : pointer_remove (.obj kvs) "/a" = (.obj (eraseKey "a" kvs), none) := by
    have hs : splitPointer "/a" = .ok ["a"] := rfl
    simp [pointer_remove, hs, removeTokens, ha]
  have hb' : lookupKey "b" (eraseKey "a" kvs) = none :=
    lookupKey_eraseKey_none "a" "b" kvs hb
  have hadd : pointer_add (.obj (eraseKey "a" kvs)) "/b/c" v
      = (.obj (eraseKey "a" kvs ++ [("b", .obj [("c", v)])]), none) := by
    have hs : splitPointer "/b/c" = .ok ["b", "c"] := rfl
    simp [pointer_add, hs, addTokens, descend, hb', lookupKey]
  simp [applyPatch, applyOp, hget, hrm, hadd]

/-- C2 (amended) at the document `{"a": "z", "k": 7}`. -/
theorem c2_amended_witness :
    applyPatch (.obj [("a", .str "z"), ("k", .num 7)])
        [⟨some "move", some "/b/c", none, some "/a"⟩]
      = (.obj (eraseKey "a" [("a", .str "z"), ("k", .num 7)]
            ++ [("b", .obj [("c", .str "z")])]), none) :=
  c2_amended_move_autocreates_parent [("a", .str "z"), ("k", .num 7)]
    (.str "z") rfl rfl

/-- C10: for every document whose root is an object and every pointer of at
least two tokens whose non-final tokens name absent keys of the object
levels they traverse (the first token absent at the root, each later
non-final token absent in the freshly created level), `remove` and
`replace` insert empty objects at the absent intermediate keys into the
input document and then fail on the final token: the failing operation
leaves the document mutated, not unchanged. -/
theorem c10_failing_remove_replace_mutates (kvs : List (String × J))
    (t : String) (rest : List String) (v : J)
    (hne : rest ≠ []) (habs : lookupKey t kvs = none) :
    removeTokens (.obj kvs) (t :: rest)
        = (.obj (kvs ++ [(t, nestEmpty rest)]), some .notFound)
    ∧ replaceTokens (.obj kvs) (t :: rest) v
        = (.obj (kvs ++ [(t, nestEmpty rest)]), some .replaceMissing)
    ∧ J.obj (kvs ++ [(t, nestEmpty rest)]) ≠ J.obj kvs := by
  refine ⟨removeTokens_nest rest t kvs hne habs,
          replaceTokens_nest rest t kvs v hne habs, ?_⟩
  intro hcontra
  injection hcontra with h
  apply_fun List.length at h
  simp at h

/-- C10 at the document `{"a": 1}` and pointer `/p/q/r`: both failing
operations leave `{"a": 1, "p": {"q": {}}}` behind. -/
theorem c10_witness :
    removeTokens (.obj [("a", .num 1)]) ("p" :: ["q", "r"])
        = (.obj ([("a", .num 1)] ++ [("p", nestEmpty ["q", "r"])]), some .notFound)
    ∧ replaceTokens (.obj [("a", .num 1)]) ("p" :: ["q", "r"]) .null
        = (.obj ([("a", .num 1)] ++ [("p", nestEmpty ["q", "r"])]), some .replaceMissing)
    ∧ J.obj ([("a", .num 1)] ++ [("p", nestEmpty ["q", "r"])]) ≠ .obj [("a", .num 1)] :=
  c10_failing_remove_replace_mutates [("a", .num 1)] "p" ["q", "r"] .null
    (by simp) rfl

theorem navEnsure_addTokens_targetExists (nonfinal : List String) :
    ∀ (doc : J) (kvs : List (String × J)) (k : String) (v w : J),
      navEnsure doc nonfinal = some (.obj kvs) →
      lookupKey k kvs = some w →
      (addTokens doc (nonfinal ++ [k]) v).2 = some .targetExists := by
  induction nonfinal with
  | nil =>
      intro doc kvs k v w hnav hk
      simp only [navEnsure, Option.some.injEq] at hnav
      subst hnav
      simp [addTokens, hk]
  | cons t rest ih =>
      intro doc kvs k v w hnav hk
      rw [show (t :: rest) ++ [k] = t :: (rest ++ [k]) from rfl,
          addTokens_cons_of_ne_nil _ _ _ _ (by simp)]
      cases doc with
      | arr xs =>
          cases hp : parseInt t with
          | none =>
              simp only [navEnsure, hp] at hnav
              exact Option.noConfusion hnav
          | some kk =>
              cases hi : pyIdx xs.length kk with
              | none =>
                  simp only [navEnsure, hp, hi] at hnav
                  exact Option.noConfusion hnav
              | some i =>
                  simp only [navEnsure, hp, hi] at hnav
                  simp only [descend, hp, hi]
                  exact ih _ _ _ v w hnav hk
      | obj kvs0 =>
          simp only [navEnsure] at hnav
          cases hl : lookupKey t kvs0 with
          | some c =>
              rw [hl] at hnav
              simp only [descend, hl]
              exact ih _ _ _ v w hnav hk
          | none =>
              rw [hl] at hnav
              simp only [descend, hl]
              exact ih _ _ _ v w hnav hk
      | null =>
          simp only [navEnsure] at hnav
          exact Option.noConfusion hnav
      | bool b =>
          simp only [navEnsure] at hnav
          exact Option.noConfusion hnav
      | num n =>
          simp only [navEnsure] at hnav
          exact Option.noConfusion hnav
      | str s =>
          simp only [navEnsure] at hnav
          exact Option.noConfusion hnav

/-- C5: `add` is strict-insert, never upsert: whenever `_ensure_parent`
navigation over the non-final tokens yields an object parent in which the
final key is already present, `pointer_add` fails with `TargetExists`; in
particular applying the patch `[{"op": "add", "path": "/a", "value": 2}]`
to the document `{"a": 1}` fails with `TargetExists` and leaves the
document unchanged. -/
theorem c5_add_strict_insert :
    (∀ (doc : J) (nonfinal : List String) (kvs : List (String × J))
        (k : String) (v w : J),
      navEnsure doc nonfinal = some (.obj kvs) →
      lookupKey k kvs = some w →
      (addTokens doc (nonfinal ++ [k]) v).2 = some .targetExists)
    ∧ applyPatch (.obj [("a", .num 1)])
        [⟨some "add", some "/a", some (.num 2), none⟩]
      = (.obj [("a", .num 1)], some .targetExists) :=
  ⟨fun doc nonfinal kvs k v w h1 h2 =>
      navEnsure_addTokens_targetExists nonfinal doc kvs k v w h1 h2, rfl⟩

/-- C5 at the nested object parent `{"p": {"q": 1}}` with an `add` of the
already-present key `/p/q`. -/
theorem c5_witness :
    (addTokens (.obj [("p", .obj [("q", .num 1)])]) (["p"] ++ ["q"])
        (.num 2)).2 = some .targetExists :=
  c5_add_strict_insert.1 (.obj [("p", .obj [("q", .num 1)])]) ["p"]
    [("q", .num 1)] "q" (.num 2) (.num 1) rfl rfl

/-- C3 (counterexample): on `{"x": [1, 2, 3]}` (array length `3`) the patch
`[{"op": "add", "path": "/x/5", "value": 9}]` with index `5` outside
`[0, 3]` does not fail with `IndexOutOfRange`: Python's clamping
`list.insert` appends and the patch succeeds with `{"x": [1, 2, 3, 9]}`. -/
theorem c3_counterexample :
    applyPatch (.obj [("x", .arr [.num 1, .num 2, .num 3])])
        [⟨some "add", some "/x/5", some (.num 9), none⟩]
      = (.obj [("x", .arr [.num 1, .num 2, .num 3, .num 9])], none) := rfl

/-- C3 (amended): for an array parent of length `n` and a numeric final
index token `k`, `pointer_add` inserts the value at position `k`, shifting
subsequent elements right, when `0 ≤ k ≤ n` — but for `k` outside `[0, n]`
it does not fail: the insertion position is clamped as Python `list.insert`
clamps it (`k > n` appends at the end; `k < -n` inserts at the front;
other negative `k` insert at `n + k`). -/
theorem c3_amended_add_clamps (xs : List J) (t : String) (k : Int) (v : J)
    (hp : parseInt t = some k) :
    addTokens (.arr xs) [t] v
        = (.arr (xs.insertIdx (pyInsertPos xs.length k) v), none)
    ∧ (0 ≤ k → k ≤ (xs.length : Int) → pyInsertPos xs.length k = k.toNat)
    ∧ ((xs.length : Int) < k → pyInsertPos xs.length k = xs.length)
    ∧ (k < -(xs.length : Int) → pyInsertPos xs.length k = 0)
    ∧ (-(xs.length : Int) ≤ k → k < 0 →
        pyInsertPos xs.length k = ((xs.length : Int) + k).toNat) := by
  have hdash : t ≠ "-" := by
    intro h
    rw [h, show parseInt "-" = (none : Option Int) from rfl] at hp
    exact Option.noConfusion hp
  refine ⟨?_, ?_, ?_, ?_, ?_⟩
  · simp [addTokens, hdash, hp]
  · intro h1 h2
    simp only [pyInsertPos, if_neg (by omega : ¬ k < 0)]
    omega
  · intro h
    simp only [pyInsertPos, if_neg (by omega : ¬ k < 0)]
    omega
  · intro h
    simp only [pyInsertPos, if_pos (by omega : k < 0)]
    omega
  · intro h1 h2
    simp only [pyInsertPos, if_pos h2]
    omega

/-- C3 at the array `[1, 2, 3]` and token `"5"`. -/
theorem c3_witness :
    addTokens (.arr [.num 1, .num 2, .num 3]) ["5"] (.num 9)
      = (.arr (([.num 1, .num 2, .num 3] : List J).insertIdx
          (pyInsertPos (List.length [J.num 1, .num 2, .num 3]) 5) (.num 9)),
         none) :=
  (c3_amended_add_clamps [.num 1, .num 2, .num 3] "5" 5 (.num 9) rfl).1

/-- C4 (counterexample): the get of pointer "slash x slash minus-one" (see
the literal in the statement) on `{"x": [10, 20, 30]}`
succeeds with `30` — the negative index token `"-1"` is not rejected with
an error: Python indexing addresses elements from the end. -/
theorem c4_counterexample :
    pointer_get (.obj [("x", .arr [.num 10, .num 20, .num 30])]) "/x/-1"
      = .ok (.num 30) := rfl

/-- C4 (amended): for every `get`, `remove`, or `replace` whose final token
addresses an array of length `n` and parses as an integer `k`, the
operation succeeds exactly when `-n ≤ k < n` (Python index semantics: a
negative `k` addresses element `n + k`) and fails with `IndexOutOfRange`
otherwise; a token that does not parse as an integer fails with the
`int()` parse error (`get` rejects the `-` token with its own error before
parsing). -/
theorem c4_amended_py_index (xs : List J) (t : String) (v : J) :
    (∀ k, parseInt t = some k →
      (∀ i, pyIdx xs.length k = some i →
        getTokens (.arr xs) [t] = .ok (xs.getD i .null)
        ∧ removeTokens (.arr xs) [t] = (.arr (xs.eraseIdx i), none)
        ∧ replaceTokens (.arr xs) [t] v = (.arr (xs.set i v), none))
      ∧ (pyIdx xs.length k = none →
        getTokens (.arr xs) [t] = .error .indexOutOfRange
        ∧ removeTokens (.arr xs) [t] = (.arr xs, some .indexOutOfRange)
        ∧ replaceTokens (.arr xs) [t] v = (.arr xs, some .indexOutOfRange))
      ∧ ((pyIdx xs.length k).isSome
          ↔ -(xs.length : Int) ≤ k ∧ k < (xs.length : Int)))
    ∧ (parseInt t = none → t ≠ "-" →
        getTokens (.arr xs) [t] = .error .intParse
        ∧ removeTokens (.arr xs) [t] = (.arr xs, some .intParse)
        ∧ replaceTokens (.arr xs) [t] v = (.arr xs, some .intParse)) := by
  constructor
  · intro k hp
    have hdash : t ≠ "-" := by
      intro h
      rw [h, show parseInt "-" = (none : Option Int) from rfl] at hp
      exact Option.noConfusion hp
    refine ⟨?_, ?_, ?_⟩
    · intro i hi
      refine ⟨?_, ?_, ?_⟩
      · simp [getTokens, hdash, hp, hi]
      · simp [removeTokens, hp, hi]
      · simp [replaceTokens, hp, hi]
    · intro hi
      refine ⟨?_, ?_, ?_⟩
      · simp [getTokens, hdash, hp, hi]
      · simp [removeTokens, hp, hi]
      · simp [replaceTokens, hp, hi]
    · unfold pyIdx
      split_ifs with h1 h2 <;> simp <;> omega
  · intro hp hdash
    refine ⟨?_, ?_, ?_⟩
    · simp [getTokens, hdash, hp]
    · simp [removeTokens, hp]
    · simp [replaceTokens, hp]

/-- C4 at the array `[10, 20, 30]` and negative token `"-1"`, which
addresses the last element. -/
theorem c4_witness :
    getTokens (.arr [.num 10, .num 20, .num 30]) ["-1"]
        = .ok (([.num 10, .num 20, .num 30] : List J).getD 2 .null)
    ∧ removeTokens (.arr [.num 10, .num 20, .num 30]) ["-1"]
        = (.arr (([.num 10, .num 20, .num 30] : List J).eraseIdx 2), none)
    ∧ replaceTokens (.arr [.num 10, .num 20, .num 30]) ["-1"] (.num 7)
        = (.arr (([.num 10, .num 20, .num 30] : List J).set 2 (.num 7)), none) :=
  (((c4_amended_py_index [.num 10, .num 20, .num 30] "-1" (.num 7)).1
      (-1) rfl).1) 2 rfl

/-- C6: executing a `test` operation performs `get(path)` followed by a
Python structural-equality comparison against the operation's `value`; on
mismatch it raises the assertion failure carrying the path, the actual
value, and the expected value; and in every case — success, mismatch, or
`get` failure — the document is returned unchanged. -/
theorem c6_test_pure (doc : J) (path : String) (value : Option J)
    (f : Option String) :
    (applyOp doc ⟨some "test", some path, value, f⟩).1 = doc
    ∧ (applyOp doc ⟨some "test", some path, value, f⟩).2
        = (match pointer_get doc path with
           | .error e => some e
           | .ok cur =>
               if pyEq cur (value.getD .null) then none
               else some (.assertionFailed path cur (value.getD .null))) := by
  have hdef : applyOp doc ⟨some "test", some path, value, f⟩
      = (match pointer_get doc path with
         | .error e => (doc, some e)
         | .ok cur =>
             if pyEq cur (value.getD .null) then (doc, none)
             else (doc, some (.assertionFailed path cur (value.getD .null)))) := rfl
  rw [hdef]
  cases hg : pointer_get doc path with
  | error e => exact ⟨rfl, rfl⟩
  | ok cur =>
      by_cases hpe : pyEq cur (value.getD .null) = true
      · simp [hpe]
      · simp [hpe]

theorem replace2_cons_of_head_ne (a b c d : Char) (l : List Char)
    (h : d ≠ a) : replace2 a b c (d :: l) = d :: replace2 a b c l := by
  cases l with
  | nil => rfl
  | cons y rest =>
      simp only [replace2]
      rw [if_neg (fun hc => h hc.1)]

theorem replace2_head (a b c y : Char) (l : List Char) :
    ∃ h t, replace2 a b c (y :: l) = h :: t ∧ (h = y ∨ h = c) := by
  cases l with
  | nil => exact ⟨y, [], rfl, Or.inl rfl⟩
  | cons z rest =>
      by_cases hc : y = a ∧ z = b
      · exact ⟨c, replace2 a b c rest, by simp [replace2, hc], Or.inr rfl⟩
      · exact ⟨y, replace2 a b c (z :: rest), by simp [replace2, hc], Or.inl rfl⟩

theorem replace2_chain_eq_indep (l : List Char) :
    replace2 '~' '0' '~' (replace2 '~' '1' '/' l) = unescIndepChars l := by
  induction l using unescIndepChars.induct with
  | case1 => rfl
  | case2 x => rfl
  | case3 x y rest h ih =>
      obtain ⟨hx, hy⟩ := h
      subst hx; subst hy
      have h1 : replace2 '~' '1' '/' ('~' :: '1' :: rest)
          = '/' :: replace2 '~' '1' '/' rest := by simp [replace2]
      rw [h1, replace2_cons_of_head_ne _ _ _ _ _ (by decide), ih]
      simp [unescIndepChars]
  | case4 x y rest h1 h2 ih =>
      obtain ⟨hx, hy⟩ := h2
      subst hx; subst hy
      have ha : replace2 '~' '1' '/' ('~' :: '0' :: rest)
          = '~' :: '0' :: replace2 '~' '1' '/' rest := by
        simp only [replace2]
        rw [if_neg (by decide)]
        rw [replace2_cons_of_head_ne _ _ _ _ _ (by decide)]
      rw [ha]
      have hb : replace2 '~' '0' '~' ('~' :: '0' :: replace2 '~' '1' '/' rest)
          = '~' :: replace2 '~' '0' '~' (replace2 '~' '1' '/' rest) := by
        simp [replace2]
      rw [hb, ih]
      simp [unescIndepChars]
  | case5 x y rest h1 h2 ih =>
      have ha : replace2 '~' '1' '/' (x :: y :: rest)
          = x :: replace2 '~' '1' '/' (y :: rest) := by
        simp only [replace2]
        rw [if_neg h1]
      rw [ha]
      by_cases hx : x = '~'
      · subst hx
        have hy1 : y ≠ '1' := fun hy => h1 ⟨rfl, hy⟩
        have hy0 : y ≠ '0' := fun hy => h2 ⟨rfl, hy⟩
        obtain ⟨hd, tl, heq, hds⟩ := replace2_head '~' '1' '/' y (rest)
        have hd0 : hd ≠ '0' := by
          cases hds with
          | inl hh => rw [hh]; exact hy0
          | inr hh => rw [hh]; decide
        rw [heq]
        have hb : replace2 '~' '0' '~' ('~' :: hd :: tl)
            = '~' :: replace2 '~' '0' '~' (hd :: tl) := by
          simp only [replace2]
          rw [if_neg (fun hc => hd0 hc.2)]
        rw [hb, ← heq, ih]
        simp only [unescIndepChars]
        rw [if_neg (fun hc => hy1 hc.2), if_neg (fun hc => hy0 hc.2)]
      · rw [replace2_cons_of_head_ne _ _ _ _ _ hx, ih]
        simp only [unescIndepChars]
        rw [if_neg h1, if_neg h2]

/-- C7: the source's chained-`replace` unescaping coincides, on every raw
token, with the independent-substitution unescaping (`~1`→`/` and `~0`→`~`
applied in one pass, each escape unescaped exactly once, no
double-processing of overlapping patterns); in particular the token `"~01"`
unescapes to `"~1"`. -/
theorem c7_unescape_independent :
    (∀ t : String, unescapeToken t = unescapeIndep t)
    ∧ unescapeToken "~01" = "~1" :=
  ⟨fun t => congrArg String.mk (replace2_chain_eq_indep t.data), rfl⟩

theorem getTokens_replaceTokens (ts : List String) :
    ∀ (d u v : J), getTokens d ts = .ok u →
      (replaceTokens d ts v).2 = none
      ∧ getTokens (replaceTokens d ts v).1 ts = .ok v := by
  induction ts with
  | nil =>
      intro d u v _
      constructor <;> simp [replaceTokens, getTokens]
  | cons t rest ih =>
      intro d u v hget
      cases rest with
      | nil =>
          cases d with
          | arr xs =>
              by_cases hdash : t = "-"
              · rw [hdash] at hget; simp [getTokens] at hget
              · cases hp : parseInt t with
                | none => simp [getTokens, hdash, hp] at hget
                | some k =>
                    cases hi : pyIdx xs.length k with
                    | none => simp [getTokens, hdash, hp, hi] at hget
                    | some i =>
                        have hlt : i < xs.length := pyIdx_lt hi
                        refine ⟨by simp [replaceTokens, hp, hi], ?_⟩
                        simp [replaceTokens, hp, hi, getTokens, hdash,
                              List.getElem?_set_self hlt]
          | obj kvs =>
              cases hl : lookupKey t kvs with
              | none => simp [getTokens, hl] at hget
              | some c =>
                  refine ⟨by simp [replaceTokens, hl], ?_⟩
                  simp [replaceTokens, hl, getTokens, lookupKey_setKey_self]
          | null => simp [getTokens] at hget
          | bool b => simp [getTokens] at hget
          | num n => simp [getTokens] at hget
          | str s => simp [getTokens] at hget
      | cons r rs =>
          cases d with
          | arr xs =>
              by_cases hdash : t = "-"
              · rw [hdash] at hget; simp [getTokens] at hget
              · cases hp : parseInt t with
                | none => simp [getTokens, hdash, hp] at hget
                | some k =>
                    cases hi : pyIdx xs.length k with
                    | none => simp [getTokens, hdash, hp, hi] at hget
                    | some i =>
                        have hlt : i < xs.length := pyIdx_lt hi
                        have hget' : getTokens (xs[i]?.getD J.null) (r :: rs) = .ok u := by
                          simpa [getTokens, hdash, hp, hi] using hget
                        obtain ⟨h1, h2⟩ := ih (xs[i]?.getD J.null) u v hget'
                        constructor
                        · simp [replaceTokens, descend, hp, hi, h1]
                        · simp [replaceTokens, descend, hp, hi, getTokens, hdash,
                                List.getElem?_set_self hlt, h2]
          | obj kvs =>
              cases hl : lookupKey t kvs with
              | none => simp [getTokens, hl] at hget
              | some c =>
                  have hget' : getTokens c (r :: rs) = .ok u := by
                    simpa [getTokens, hl] using hget
                  obtain ⟨h1, h2⟩ := ih c u v hget'
                  constructor
                  · simp [replaceTokens, descend, hl, h1]
                  · simp [replaceTokens, descend, hl, getTokens,
                          lookupKey_setKey_self, h2]
          | null => simp [getTokens] at hget
          | bool b => simp [getTokens] at hget
          | num n => simp [getTokens] at hget
          | str s => simp [getTokens] at hget

/-- C8: for every document `d`, value `v`, and valid pointer `p` that
already resolves to a value in `d`, the replacement at `p` succeeds and a
subsequent get at `p` returns `v`:
`get(set_replace(d, p, v), p) == v`. -/
theorem c8_get_after_replace (d : J) (p : String) (u v : J)
    (h : pointer_get d p = .ok u) :
    (pointer_replace d p v).2 = none
    ∧ pointer_get (pointer_replace d p v).1 p = .ok v := by
  unfold pointer_get at h ⊢
  unfold pointer_replace
  cases hs : splitPointer p with
  | error e => rw [hs] at h; exact Except.noConfusion h
  | ok ts =>
      rw [hs] at h
      exact getTokens_replaceTokens ts d u v h

/-- C8 at the document `{"a": {"b": 1}}`, pointer `/a/b`, and new value
`"z"`. -/
theorem c8_witness :
    (pointer_replace (.obj [("a", .obj [("b", .num 1)])]) "/a/b" (.str "z")).2
        = none
    ∧ pointer_get
        (pointer_replace (.obj [("a", .obj [("b", .num 1)])]) "/a/b" (.str "z")).1
        "/a/b" = .ok (.str "z") :=
  c8_get_after_replace (.obj [("a", .obj [("b", .num 1)])]) "/a/b"
    (.num 1) (.str "z") rfl

theorem lookupFile_setFile_self (p : String) (b : Bytes)
    (l : List (String × Bytes)) : lookupFile p (setFile p b l) = some b := by
  induction l with
  | nil => simp [setFile, lookupFile]
  | cons q rest ih =>
      obtain ⟨q1, c1⟩ := q
      by_cases h : q1 = p
      · simp [setFile, lookupFile, h]
      · simp [setFile, lookupFile, h, ih]

theorem lookupFile_setFile_ne (p q : String) (b : Bytes)
    (l : List (String × Bytes)) (h : q ≠ p) :
    lookupFile q (setFile p b l) = lookupFile q l := by
  induction l with
  | nil => simp [setFile, lookupFile, Ne.symm h]
  | cons e rest ih =>
      obtain ⟨q1, c1⟩ := e
      by_cases h1 : q1 = p
      · subst h1
        simp [setFile, lookupFile, Ne.symm h]
      · simp [setFile, lookupFile, h1, ih]

theorem lookupFile_removeFile_ne (p q : String)
    (l : List (String × Bytes)) (h : q ≠ p) :
    lookupFile q (removeFile p l) = lookupFile q l := by
  induction l with
  | nil => simp [removeFile]
  | cons e rest ih =>
      obtain ⟨q1, c1⟩ := e
      by_cases h1 : q1 = p
      · subst h1
        simp [removeFile, lookupFile, Ne.symm h, ih]
      · simp [removeFile, lookupFile, h1, ih]

/-- C9: when `make_backup` is true and the target `path` already exists
with contents `old`, `write_atomic` preserves a copy of the exact
pre-commit bytes of the target at the sibling path
`path ++ ".bak." ++ fmtTimestamp now ++ "." ++ take8 newHash` (the UTC
timestamp in `YYYYMMDDThhmmssZ` format and the first 8 hex characters of
the new revision digest), the backup-copy event precedes the rename event
in the effect trace, and after the call the target holds the new
serialized bytes.  The `tmpPath` disequalities record that `mkstemp`
returns a fresh name distinct from the target and the backup sibling. -/
theorem c9_backup_before_rename (dumps : J → Bytes)
    (sha256hex : Bytes → String) (now : UTCTime) (tmpPath : String)
    (fs : FS) (path : String) (obj : J) (old : Bytes)
    (hold : fs.read path = some old) (htp : tmpPath ≠ path)
    (htb : tmpPath ≠ path ++ ".bak." ++ fmtTimestamp now ++ "."
        ++ take8 (sha256hex (dumps obj))) :
    ((write_atomic dumps sha256hex now tmpPath fs path obj true).1.read
        (path ++ ".bak." ++ fmtTimestamp now ++ "."
          ++ take8 (sha256hex (dumps obj)))
      = some old)
    ∧ ((write_atomic dumps sha256hex now tmpPath fs path obj true).1.read path
      = some (dumps obj))
    ∧ ((write_atomic dumps sha256hex now tmpPath fs path obj true).2.1
      = (path, sha256hex (dumps obj)))
    ∧ ((write_atomic dumps sha256hex now tmpPath fs path obj true).2.2
      = [.mkTemp tmpPath, .writeTemp tmpPath (dumps obj), .fsyncTemp tmpPath,
         .copyBackup path (path ++ ".bak." ++ fmtTimestamp now ++ "."
            ++ take8 (sha256hex (dumps obj))),
         .renameOnto tmpPath path]) := by
  have hbak_ne_path : path ++ ".bak." ++ fmtTimestamp now ++ "."
      ++ take8 (sha256hex (dumps obj)) ≠ path := by
    intro hcontra
    have hlen := congrArg String.length hcontra
    simp only [String.length_append] at hlen
    have h5 : (".bak." : String).length = 5 := rfl
    have h1 : ("." : String).length = 1 := rfl
    omega
  have hread1 : (fs.write tmpPath (dumps obj)).read path = some old := by
    show lookupFile path (setFile tmpPath (dumps obj) fs.files) = some old
    rw [lookupFile_setFile_ne _ _ _ _ (Ne.symm htp)]
    exact hold
  have hcond : (true : Bool) = true
      ∧ (fs.write tmpPath (dumps obj)).pathExists path = true := by
    refine ⟨rfl, ?_⟩
    simp [FS.pathExists, hread1]
  have heq : write_atomic dumps sha256hex now tmpPath fs path obj true
      = ((((fs.write tmpPath (dumps obj)).write
              (path ++ ".bak." ++ fmtTimestamp now ++ "."
                ++ take8 (sha256hex (dumps obj)))
              (((fs.write tmpPath (dumps obj)).read path).getD "")).erase
            tmpPath).write path (dumps obj),
         (path, sha256hex (dumps obj)),
         [.mkTemp tmpPath, .writeTemp tmpPath (dumps obj),
          .fsyncTemp tmpPath,
          .copyBackup path (path ++ ".bak." ++ fmtTimestamp now ++ "."
             ++ take8 (sha256hex (dumps obj))),
          .renameOnto tmpPath path]) := by
    unfold write_atomic
    dsimp only
    split
    · rfl
    · rename_i hneg
      exact absurd hcond hneg
  rw [heq]
  refine ⟨?_, ?_, rfl, rfl⟩
  · show lookupFile _ (setFile path (dumps obj) _) = some old
    rw [lookupFile_setFile_ne _ _ _ _ hbak_ne_path]
    show lookupFile _ (removeFile tmpPath _) = some old
    rw [lookupFile_removeFile_ne _ _ _ (Ne.symm htb)]
    show lookupFile _ (setFile _ _ _) = some old
    rw [hread1]
    exact lookupFile_setFile_self _ _ _
  · exact lookupFile_setFile_self _ _ _

/-- C9 at a one-file file system holding `"OLD"` at `f.json`, with the
serializer and digest abstracted by constant functions. -/
theorem c9_witness :
    ((write_atomic (fun _ => "NEW") (fun _ => "0123456789abcdef")
        ⟨2025, 10, 12, 1, 2, 3⟩ ".jsontmp-x" ⟨[("f.json", "OLD")]⟩
        "f.json" .null true).1.read
        ("f.json" ++ ".bak." ++ fmtTimestamp ⟨2025, 10, 12, 1, 2, 3⟩ ++ "."
          ++ take8 ((fun (_ : Bytes) => "0123456789abcdef") ((fun (_ : J) => "NEW") .null)))
      = some "OLD")
    ∧ ((write_atomic (fun _ => "NEW") (fun _ => "0123456789abcdef")
        ⟨2025, 10, 12, 1, 2, 3⟩ ".jsontmp-x" ⟨[("f.json", "OLD")]⟩
        "f.json" .null true).1.read "f.json"
      = some ((fun (_ : J) => "NEW") J.null))
    ∧ ((write_atomic (fun _ => "NEW") (fun _ => "0123456789abcdef")
        ⟨2025, 10, 12, 1, 2, 3⟩ ".jsontmp-x" ⟨[("f.json", "OLD")]⟩
        "f.json" .null true).2.1
      = ("f.json", (fun (_ : Bytes) => "0123456789abcdef") ((fun (_ : J) => "NEW") .null)))
    ∧ ((write_atomic (fun _ => "NEW") (fun _ => "0123456789abcdef")
        ⟨2025, 10, 12, 1, 2, 3⟩ ".jsontmp-x" ⟨[("f.json", "OLD")]⟩
        "f.json" .null true).2.2
      = [.mkTemp ".jsontmp-x", .writeTemp ".jsontmp-x" ((fun (_ : J) => "NEW") .null),
         .fsyncTemp ".jsontmp-x",
         .copyBackup "f.json" ("f.json" ++ ".bak."
            ++ fmtTimestamp ⟨2025, 10, 12, 1, 2, 3⟩ ++ "."
            ++ take8 ((fun (_ : Bytes) => "0123456789abcdef") ((fun (_ : J) => "NEW") .null))),
         .renameOnto ".jsontmp-x" "f.json"]) :=
  c9_backup_before_rename (fun _ => "NEW") (fun _ => "0123456789abcdef")
    ⟨2025, 10, 12, 1, 2, 3⟩ ".jsontmp-x" ⟨[("f.json", "OLD")]⟩
    "f.json" .null "OLD" rfl (by decide) (by decide)

end JsonPlanTool
